import Mathlib

/-! Verification development for the coding-agent repository.

This file gives a shallow embedding of the core components the claims are
about, translated from the Python source:

* the sandboxed filesystem adapter (src/tools/fs.py, class FileSystemTool);
* the allowlisted shell adapter (src/tools/shell.py, class ShellTool);
* the risk/approval gate (src/agent/approvals.py, class ApprovalSystem);
* the observation classifier (src/agent/core.py, CodingAgent.observe);
* the bounded plan/execute/observe/reflect loop (src/agent/core.py,
  CodingAgent.agent_loop).

Modelling conventions:

* Text is modelled as Lean String or List Char.  Line boundaries are the
  single character LF, which matches Python splitlines on LF-only text;
  str.lower is modelled on ASCII letters via Char.toLower.
* Filesystem paths are lists of components.  Path.resolve is modelled as
  dot/dot-dot normalisation over an absolute component list; symbolic links
  are assumed absent.  Joining repo_root with an absolute argument yields
  the argument itself, as with pathlib.
* The filesystem is an association list from absolute canonical file paths
  to file contents.  A path is a directory when it is the repository root
  (or an ancestor of it) or a strict prefix of an existing file path.
  File sizes are UTF-8 byte counts of contents.
* Result messages are modelled as an inductive kind, one constructor per
  distinct message family in the source; unified-diff text is not modelled
  because no claim mentions diff contents.
* The fixed regular-expression tables (dangerous shell patterns) are
  abstracted as Boolean scanning functions supplied as parameters; the
  relevant claims are quantified over every such function.
* External collaborators (planner, reflector, verifier, subprocess runner)
  are oracles supplied as parameters, per the spec's interface boundary.
-/

namespace CodingAgent

/-- Number of bytes of the UTF-8 encoding of one character (as produced by
Python str.encode of a well-formed code point). -/
def charUtf8Len (c : Char) : Nat :=
  if c.val < 0x80 then 1
  else if c.val < 0x800 then 2
  else if c.val < 0x10000 then 3
  else 4

/-- UTF-8 byte length of a text, mirroring len(content.encode("utf-8")). -/
def utf8Len (cs : List Char) : Nat := (cs.map charUtf8Len).sum

/-- Split into lines keeping the LF terminators, mirroring Python
splitlines(keepends=True) on LF-only text. -/
def splitKE : List Char → List (List Char)
  | [] => []
  | c :: rest =>
    if c = '\n' then ['\n'] :: splitKE rest
    else
      match splitKE rest with
      | [] => [[c]]
      | l :: ls => (c :: l) :: ls

/-- Insert an element before position i, clamping to the end when i exceeds
the length, mirroring Python list.insert. -/
def insertAt {α : Type} (i : Nat) (x : α) (xs : List α) : List α :=
  xs.take i ++ x :: xs.drop i

/-- Index of the first occurrence of pat in the second argument, scanning
left to right; none when pat does not occur.  Mirrors the search done by
Python str.replace(old, new, 1) and the "old in content" test. -/
def firstOcc (pat : List Char) : List Char → Option Nat
  | [] => if pat.isPrefixOf [] then some 0 else none
  | c :: t =>
    if pat.isPrefixOf (c :: t) then some 0
    else (firstOcc pat t).map (fun n => n + 1)

/-- Replace the first occurrence of pat by repl, mirroring Python
content.replace(old_text, new_text, 1). -/
def replaceFirst (s pat repl : List Char) : List Char :=
  match firstOcc pat s with
  | none => s
  | some k => s.take k ++ repl ++ s.drop (k + pat.length)

/-- Whether pat occurs as a contiguous substring, mirroring Python
"pat in s". -/
def occursIn (s pat : List Char) : Bool := (firstOcc pat s).isSome

/-- A path argument as received by the adapter: whether the original string
was absolute, and its components (possibly containing "." and ".."). -/
structure RawPath where
  absolute : Bool
  comps : List String
deriving DecidableEq

/-- One normalisation step: "." is dropped, ".." pops the last component
(staying put at the filesystem root), anything else is appended. -/
def normStep (acc : List String) (c : String) : List String :=
  if c = "." then acc
  else if c = ".." then acc.dropLast
  else acc ++ [c]

/-- Normalise a component list, mirroring Path.resolve without symlinks. -/
def normComps (cs : List String) : List String := cs.foldl normStep []

/-- Resolve a raw path against the (already canonical) repository root,
mirroring (self.repo_root / path).resolve(): an absolute argument replaces
the root, a relative one is appended to it. -/
def resolvePath (root : List String) (p : RawPath) : List String :=
  normComps (if p.absolute then p.comps else root ++ p.comps)

/-- FileSystemTool._validate_path: resolve, require the resolved path to lie
under the repository root (relative_to succeeds exactly when root is a
component prefix), then reject absolute arguments.  A none result stands for
the raised ValueError, which every operation catches into a failed result. -/
def validatePath (root : List String) (p : RawPath) : Option (List String) :=
  let full := resolvePath root p
  if !(root.isPrefixOf full) then none
  else if p.absolute then none
  else some full

/-- The spec's descendant rule: resolved.startsWith(root) after
canonicalization (reflexive, as with Path.relative_to). -/
def isDescendant (root q : List String) : Bool := root.isPrefixOf q

/-- Message families of FileOperation results, one constructor per distinct
message produced by src/tools/fs.py. -/
inductive FsKind where
  /-- ValueError raised by _validate_path and caught: the path escapes the
  repository root or the original argument was absolute. -/
  | pathViolation
  /-- Message "File not found" (or "Directory not found"). -/
  | notFound
  /-- Message "Not a file". -/
  | notAFile
  /-- Message "Not a directory". -/
  | notADirectory
  /-- Messages "File too large" and "Content too large". -/
  | tooLarge
  /-- Message "Text not found in ... Cannot apply edit.". -/
  | textNotFound
  /-- Message "Line number ... out of range". -/
  | lineOutOfRange
  /-- Message "Invalid operation: ...". -/
  | invalidOperation
  /-- Any other exception caught by the blanket handler ("Error ...: ..."). -/
  | caughtError
  /-- Message "Read ... bytes". -/
  | okRead
  /-- Messages "Created ..." and "Updated ...". -/
  | okWrite
  /-- Message "Edited ...". -/
  | okEdit
  /-- Message "Inserted at line ... in ...". -/
  | okInsert
  /-- Message "Deleted ... (moved to ...)". -/
  | okDelete
  /-- Message "Found ... items". -/
  | okList
deriving DecidableEq

/-- Result of one filesystem operation (dataclass FileOperation); the diff
field is not modelled, data carries the content returned by read. -/
structure FileOp where
  success : Bool
  kind : FsKind
  data : Option (List Char)
deriving DecidableEq

/-- Filesystem state: the canonical repository root and an association list
from absolute canonical file paths to contents. -/
structure FS where
  root : List String
  files : List (List String × List Char)
deriving DecidableEq

/-- Content of the regular file at q, if any. -/
def lookupFile (fs : FS) (q : List String) : Option (List Char) :=
  (fs.files.find? (fun e => e.1 = q)).map (fun e => e.2)

/-- Whether q denotes an existing directory: the repository root or one of
its ancestors, or a strict prefix of an existing file path. -/
def isDirAt (fs : FS) (q : List String) : Bool :=
  q.isPrefixOf fs.root || fs.files.any (fun e => q.isPrefixOf e.1 && decide (q ≠ e.1))

/-- Whether some strict ancestor of q exists as a regular file (which makes
mkdir(parents=True) raise). -/
def hasFileStrictAncestor (fs : FS) (q : List String) : Bool :=
  fs.files.any (fun e => e.1.isPrefixOf q && decide (e.1 ≠ q))

/-- Store content at path q, replacing any previous entry. -/
def setFile (fs : FS) (q : List String) (c : List Char) : FS :=
  ⟨fs.root, (q, c) :: fs.files.filter (fun e => decide (e.1 ≠ q))⟩

/-- Failed result for a path-jail violation. -/
def pathViolationFail : FileOp := ⟨false, .pathViolation, none⟩

namespace FileSystemTool

/-- FileSystemTool.read: validate the path, then fail on a missing path, on
a non-file, or on a file larger than max_file_size; otherwise return the
content. -/
def read (fs : FS) (max_file_size : Nat) (p : RawPath) : FileOp :=
  match validatePath fs.root p with
  | none => pathViolationFail
  | some full =>
    match lookupFile fs full with
    | none =>
      if isDirAt fs full then ⟨false, .notAFile, none⟩
      else ⟨false, .notFound, none⟩
    | some content =>
      if utf8Len content > max_file_size then ⟨false, .tooLarge, none⟩
      else ⟨true, .okRead, some content⟩

/-- FileSystemTool.write: validate the path, reject oversized content,
create parent directories (raising when an ancestor is a regular file),
then overwrite; writing over an existing directory raises and is caught. -/
def write (fs : FS) (max_file_size : Nat) (p : RawPath) (content : List Char) :
    FileOp × FS :=
  match validatePath fs.root p with
  | none => (pathViolationFail, fs)
  | some full =>
    if utf8Len content > max_file_size then (⟨false, .tooLarge, none⟩, fs)
    else if hasFileStrictAncestor fs full then (⟨false, .caughtError, none⟩, fs)
    else if isDirAt fs full then (⟨false, .caughtError, none⟩, fs)
    else (⟨true, .okWrite, none⟩, setFile fs full content)

/-- FileSystemTool.edit: validate, require the file to exist, fail with the
text-not-found message when old_text does not occur, else replace its first
occurrence and write back. -/
def edit (fs : FS) (p : RawPath) (old_text new_text : List Char) : FileOp × FS :=
  match validatePath fs.root p with
  | none => (pathViolationFail, fs)
  | some full =>
    match lookupFile fs full with
    | none =>
      if isDirAt fs full then (⟨false, .caughtError, none⟩, fs)
      else (⟨false, .notFound, none⟩, fs)
    | some content =>
      if !(occursIn content old_text) then (⟨false, .textNotFound, none⟩, fs)
      else (⟨true, .okEdit, none⟩, setFile fs full (replaceFirst content old_text new_text))

/-- Append a trailing LF to the last line when it lacks one, mirroring the
normalisation in insert_lines. -/
def normalizeLastNl (ls : List (List Char)) : List (List Char) :=
  match ls.getLast? with
  | none => ls
  | some l => if l.getLast? = some '\n' then ls else ls.dropLast ++ [l ++ ['\n']]

/-- Append a trailing LF to non-empty content lacking one, mirroring the
content normalisation in insert_lines. -/
def ensureNl (content : List Char) : List Char :=
  if content ≠ [] ∧ content.getLast? ≠ some '\n' then content ++ ['\n'] else content

/-- FileSystemTool.insert_lines: validate, require the file to exist, split
into LF-kept lines (normalising a missing final LF), check the 1-indexed
line number against 1..lineCount+1, normalise the content's trailing LF,
then splice (after/before) or overwrite (replace) the addressed line.
For replace with line_number = lineCount+1 the source indexes past the end
and the IndexError is caught into a failure. -/
def insert_lines (fs : FS) (p : RawPath) (line_number : Nat) (content : List Char)
    (operation : String) : FileOp × FS :=
  match validatePath fs.root p with
  | none => (pathViolationFail, fs)
  | some full =>
    match lookupFile fs full with
    | none =>
      if isDirAt fs full then (⟨false, .caughtError, none⟩, fs)
      else (⟨false, .notFound, none⟩, fs)
    | some fileContent =>
      let lines := normalizeLastNl (splitKE fileContent)
      if line_number < 1 || line_number > lines.length + 1 then
        (⟨false, .lineOutOfRange, none⟩, fs)
      else
        let content1 := ensureNl content
        if operation = "after" then
          (⟨true, .okInsert, none⟩, setFile fs full (List.flatten (insertAt line_number content1 lines)))
        else if operation = "before" then
          (⟨true, .okInsert, none⟩, setFile fs full (List.flatten (insertAt (line_number - 1) content1 lines)))
        else if operation = "replace" then
          if line_number - 1 < lines.length then
            (⟨true, .okInsert, none⟩, setFile fs full (List.flatten (lines.set (line_number - 1) content1)))
          else (⟨false, .caughtError, none⟩, fs)
        else (⟨false, .invalidOperation, none⟩, fs)

/-- FileSystemTool.delete: validate, require the path to exist, then move it
(as shutil.move does, directories included) into the trash directory under a
timestamped name; moving the root or the trash directory itself into its own
subtree raises and is caught. -/
def delete (fs : FS) (timestamp : String) (p : RawPath) : FileOp × FS :=
  match validatePath fs.root p with
  | none => (pathViolationFail, fs)
  | some full =>
    if (lookupFile fs full).isNone && !(isDirAt fs full) then (⟨false, .notFound, none⟩, fs)
    else if full.isPrefixOf (fs.root ++ [".agent_trash"]) then (⟨false, .caughtError, none⟩, fs)
    else
      let trashPath := fs.root ++ [".agent_trash", timestamp ++ "_" ++ full.getLastD ""]
      (⟨true, .okDelete, none⟩,
        ⟨fs.root,
          fs.files.map (fun e =>
            if full.isPrefixOf e.1 then (trashPath ++ e.1.drop full.length, e.2) else e)⟩)

/-- FileSystemTool.list_directory: validate, fail on a missing path or a
non-directory; the sorted name listing only feeds the result message. -/
def list_directory (fs : FS) (p : RawPath) : FileOp :=
  match validatePath fs.root p with
  | none => pathViolationFail
  | some full =>
    if (lookupFile fs full).isNone && !(isDirAt fs full) then ⟨false, .notFound, none⟩
    else if (lookupFile fs full).isSome then ⟨false, .notADirectory, none⟩
    else ⟨true, .okList, none⟩

end FileSystemTool

/-- Characters treated as whitespace by Python str.strip and str.split
(restricted to ASCII). -/
def isPyWs (c : Char) : Bool :=
  c = ' ' || c = '\t' || c = '\n' || c = '\r' || c = '\x0b' || c = '\x0c'

/-- First whitespace-delimited token of a command, mirroring
command.strip().split()[0] (the empty list when the command is blank). -/
def firstToken (cs : List Char) : List Char :=
  (cs.dropWhile isPyWs).takeWhile (fun c => !(isPyWs c))

/-- Split on a separator character keeping empty pieces, mirroring Python
str.split(sep). -/
def splitOnChar (sep : Char) : List Char → List (List Char)
  | [] => [[]]
  | c :: rest =>
    if c = sep then [] :: splitOnChar sep rest
    else
      match splitOnChar sep rest with
      | [] => [[c]]
      | l :: ls => (c :: l) :: ls

/-- Basename of a command token, mirroring first_word.split("/")[-1]. -/
def tokenBasename (tok : List Char) : String :=
  ((splitOnChar '/' tok).getLastD []).asString

/-- Basename of the first token of a command string, as computed by
ShellTool._validate_command. -/
def commandBasename (command : String) : String :=
  tokenBasename (firstToken command.toList)

/-- Reasons a command is rejected before any subprocess starts. -/
inductive ShellReject where
  /-- Message "Command '...' not in allowlist". -/
  | notAllowlisted (base : String)
  /-- One of the dangerous-pattern reasons (recursive root delete, piping a
  downloader into an interpreter, sudo, writes to device files). -/
  | dangerousPattern (reason : String)
deriving DecidableEq

/-- Message families of ShellResult, one constructor per distinct message
produced by src/tools/shell.py. -/
inductive ShellMsg where
  /-- Message "Command rejected: ...". -/
  | rejected (r : ShellReject)
  /-- Message "Command executed successfully". -/
  | executedOk
  /-- Message "Command failed". -/
  | commandFailed
  /-- Message "Command timed out after ...s", carrying the timeout used. -/
  | timedOutAfter (t : Nat)
  /-- Message "Error executing command: ...". -/
  | errorExecuting
deriving DecidableEq

/-- Result of a shell command execution (dataclass ShellResult). -/
structure ShellResult where
  success : Bool
  command : String
  stdout : String
  stderr : String
  exit_code : Int
  message : ShellMsg
deriving DecidableEq

/-- Outcome of one subprocess.run call, supplied as an oracle: normal
completion with exit code and captured output, TimeoutExpired, or any
other exception. -/
inductive SubprocOutcome where
  | completed (exit_code : Int) (stdout stderr : String)
  | timedOut
  | raised
deriving DecidableEq

/-- ShellTool._validate_command: the basename of the first token must be in
the allowlist, and only then is the whole command scanned against the
dangerous-pattern table (abstracted as the scan oracle, which returns the
matching reason if any). -/
def validateCommand (scan : String → Option String) (allowlist : List String)
    (command : String) : Option ShellReject :=
  let base := commandBasename command
  if !(allowlist.contains base) then some (.notAllowlisted base)
  else
    match scan command with
    | some reason => some (.dangerousPattern reason)
    | none => none

/-- ShellTool.run: a validation error is returned as a failed result with
empty output and exit code -1 without starting any subprocess; otherwise the
subprocess runs with the caller-supplied timeout when one is given and with
max_timeout otherwise (the source applies no upper clamp), and TimeoutExpired
or any other exception is caught into a failed result. -/
def ShellTool.run (subproc : String → Nat → SubprocOutcome)
    (scan : String → Option String) (allowlist : List String) (max_timeout : Nat)
    (command : String) (timeout : Option Nat) : ShellResult :=
  match validateCommand scan allowlist command with
  | some err => ⟨false, command, "", "", -1, .rejected err⟩
  | none =>
    let actual_timeout := timeout.getD max_timeout
    match subproc command actual_timeout with
    | .completed rc out errOut =>
      ⟨decide (rc = 0), command, out, errOut, rc,
        if rc = 0 then .executedOk else .commandFailed⟩
    | .timedOut => ⟨false, command, "", "", -1, .timedOutAfter actual_timeout⟩
    | .raised => ⟨false, command, "", "", -1, .errorExecuting⟩

/-- The effective timeout handed to subprocess.run (source line
"actual_timeout = timeout if timeout is not None else self.max_timeout"). -/
def effectiveTimeout (timeout : Option Nat) (max_timeout : Nat) : Nat :=
  timeout.getD max_timeout

/-- Action types of llm.schemas.ActionType. -/
inductive PActionType where
  | fs_write
  | fs_edit
  | fs_insert_lines
  | fs_delete
  | shell_run
  | deps_install
  | git_checkout
deriving DecidableEq

/-- Whether the action type's string value starts with "fs_". -/
def isFsFamily : PActionType → Bool
  | .fs_write | .fs_edit | .fs_insert_lines | .fs_delete => true
  | _ => false

/-- One planned action (llm.schemas.Action), with the argument fields the
modelled components read: args.get("command", "") and args.get("path").
Risk scores are modelled as rationals. -/
structure Action where
  type : PActionType
  command : String
  path : Option String
  risk_score : ℚ
deriving DecidableEq

/-- A plan (llm.schemas.Plan); only the fields the modelled components read. -/
structure Plan where
  goal : String
  steps : List Action
deriving DecidableEq

/-- Reasons recorded by the approval gate; "; ".join of the trigger texts in
the source is modelled as the list of fired triggers in order. -/
inductive ApprovalReason where
  /-- Reason "Plan has no steps". -/
  | noSteps
  /-- Reason "Low risk, auto-approved". -/
  | autoApproved
  /-- Semicolon-joined fired triggers, in source order: high risk, too many
  deletions, dangerous shell. -/
  | flagged (highRisk tooManyDeletes dangerousShell : Bool)
deriving DecidableEq

/-- Decision of the approval gate (dataclass ApprovalDecision). -/
structure ApprovalDecision where
  approved : Bool
  risk_score : ℚ
  reason : ApprovalReason
  requires_confirmation : Bool
deriving DecidableEq

/-- Maximum step risk of a non-empty step list, mirroring
max(step.risk_score for step in plan.steps). -/
def planMaxRisk : List Action → ℚ
  | [] => 0
  | s :: rest => rest.foldl (fun m a => max m a.risk_score) s.risk_score

/-- Number of delete-type steps, mirroring the fs_delete count. -/
def planDeleteCount (steps : List Action) : Nat :=
  steps.countP (fun s => s.type = .fs_delete)

/-- ApprovalSystem._is_dangerous_shell: only shell_run actions are checked,
their command against the dangerous-pattern table (abstracted as scanB). -/
def isDangerousShell (scanB : String → Bool) (a : Action) : Bool :=
  if a.type = .shell_run then scanB a.command else false

/-- Whether any shell-type step carries a dangerous command, mirroring
any(... for step in plan.steps if step.type == "shell_run"). -/
def planHasDangerousShell (scanB : String → Bool) (steps : List Action) : Bool :=
  (steps.filter (fun s => s.type = .shell_run)).any (isDangerousShell scanB)

/-- ApprovalSystem.assess_plan: fail closed on an empty plan; otherwise fire
the three independent triggers (max risk above the auto-approve threshold,
delete count above the delete maximum, any dangerous shell step) and either
auto-approve or require confirmation with the fired reasons joined.  The
average risk the source also computes feeds no decision and is omitted. -/
def assess_plan (auto_approve_max : ℚ) (delete_file_max : Nat)
    (scanB : String → Bool) (plan : Plan) : ApprovalDecision :=
  match plan.steps with
  | [] => ⟨false, 0, .noSteps, false⟩
  | s :: rest =>
    let max_risk := planMaxRisk (s :: rest)
    let t1 := decide (max_risk > auto_approve_max)
    let t2 := decide (planDeleteCount (s :: rest) > delete_file_max)
    let t3 := planHasDangerousShell scanB (s :: rest)
    if t1 || t2 || t3 then ⟨false, max_risk, .flagged t1 t2 t3, true⟩
    else ⟨true, max_risk, .autoApproved, false⟩

/-- Error categories inferred by the observation classifier. -/
inductive ErrorType where
  | importError
  | syntaxError
  | fileNotFoundError
  | permissionError
  | unknownError
deriving DecidableEq

/-- Whether pat occurs in s after lowering s, mirroring
pat in s.lower() (ASCII lowering, via Char.toLower). -/
def strOccursLower (s pat : String) : Bool :=
  occursIn (s.toList.map Char.toLower) pat.toList

/-- The marker-substring scan of CodingAgent.observe, in source priority
order over the lowercased failure message. -/
def classifyError (message : String) : ErrorType :=
  if strOccursLower message "import" then .importError
  else if strOccursLower message "syntax" then .syntaxError
  else if strOccursLower message "not found" || strOccursLower message "does not exist" then
    .fileNotFoundError
  else if strOccursLower message "permission" then .permissionError
  else .unknownError

/-- Result of executing one action (dataclass ExecutionResult); the data
payload is not read by the observation classifier or the loop and is
omitted. -/
structure ExecResult where
  success : Bool
  message : String
  diff : String
deriving DecidableEq

/-- Observation of an action result (llm.schemas.Observation); context
updates are the key/value pairs the source puts in the dict. -/
structure Observation where
  action_type : PActionType
  success : Bool
  message : String
  error_type : Option ErrorType
  affected_files : List String
  diff : Option String
  can_retry : Bool
  context_update : List (String × Option String)
deriving DecidableEq

/-- CodingAgent.observe: classify the failure message, collect the path
argument for filesystem-family actions (skipped when missing or empty, per
Python truthiness), mark PermissionError alone as non-retryable, and record
a context update only on success of the file-mutating action types. -/
def observe (a : Action) (r : ExecResult) : Observation :=
  let error_type : Option ErrorType :=
    if r.success then none else some (classifyError r.message)
  { action_type := a.type
    success := r.success
    message := r.message
    error_type := error_type
    affected_files :=
      if isFsFamily a.type then
        match a.path with
        | some p => if p = "" then [] else [p]
        | none => []
      else []
    diff := if r.success then some r.diff else none
    can_retry := !(error_type = some .permissionError)
    context_update :=
      if r.success then
        match a.type with
        | .fs_write => [("file_created", a.path)]
        | .fs_edit | .fs_insert_lines => [("file_modified", a.path)]
        | .fs_delete => [("file_deleted", a.path)]
        | _ => []
      else [] }

/-- The success/iteration counters of the agent_loop results dict (the
steps, observations and diffs lists it also accumulates are not modelled;
no claim reads them). -/
structure LoopResults where
  success : Bool
  iterations : Nat
  steps_executed : Nat
  self_corrections : Nat
deriving DecidableEq

/-- Loop state threaded through the run: the results record plus
instrumentation recording every executor.execute call in order and the
number of reflector invocations, used to formalise which actions actually
ran. -/
structure LoopState where
  res : LoopResults
  execLog : List Action
  reflectCalls : Nat
deriving DecidableEq

/-- External collaborators of the agent loop, indexed so every call may
answer differently: exec takes the number of prior executor calls, reflect
the number of prior reflector calls (an error value stands for a raised
exception), verify and planNext the iteration number.  planNext is the
plan_next_steps collaboration (LLM call); its output is truncated by the
loop. -/
structure LoopOracles where
  exec : Nat → Action → ExecResult
  reflect : Nat → Except Unit (List Action)
  verify : Nat → Bool
  planNext : Nat → List Action

/-- The fix sub-loop of agent_loop (for fix_action in fix_plan.steps[:2]):
the body either breaks on a successful fix or returns the whole run as
failed, so the list argument is the already-sliced fix steps.  An ok value
continues the enclosing batch, an error value is the early return. -/
def runFixActions (oc : LoopOracles) (st : LoopState) :
    List Action → Except LoopState LoopState
  | [] => .ok st
  | f :: _rest =>
    let r := oc.exec st.execLog.length f
    let st1 : LoopState := { st with execLog := st.execLog ++ [f] }
    if r.success then .ok st1
    else .error { st1 with res := { st1.res with success := false } }

/-- Executor-call log of either outcome of a sub-loop, used to state which
actions actually ran. -/
def exceptLog : Except LoopState LoopState → List Action
  | .ok st => st.execLog
  | .error st => st.execLog

/-- The per-iteration action batch of agent_loop: execute, observe, count
the step, and on failure either abort (non-retryable), reflect and run the
fix sub-loop (non-empty fix plan), or silently continue (empty fix plan).
The in-memory context refreshes feed only the external planner oracle and
are not modelled. -/
def execBatch (oc : LoopOracles) : List Action → LoopState → Except LoopState LoopState
  | [], st => .ok st
  | a :: rest, st =>
    let r := oc.exec st.execLog.length a
    let obs := observe a r
    let st1 : LoopState :=
      { st with
        res := { st.res with steps_executed := st.res.steps_executed + 1 }
        execLog := st.execLog ++ [a] }
    if obs.success then execBatch oc rest st1
    else if obs.can_retry then
      let reflected := oc.reflect st1.reflectCalls
      let st2 : LoopState := { st1 with reflectCalls := st1.reflectCalls + 1 }
      match reflected with
      | .error _ => .error { st2 with res := { st2.res with success := false } }
      | .ok fixSteps =>
        if fixSteps.isEmpty then execBatch oc rest st2
        else
          let st3 : LoopState :=
            { st2 with res := { st2.res with self_corrections := st2.res.self_corrections + 1 } }
          match runFixActions oc st3 (fixSteps.take 2) with
          | .error st4 => .error st4
          | .ok st4 => execBatch oc rest st4
    else .error { st1 with res := { st1.res with success := false } }

/-- The iteration loop of agent_loop: record the iteration number, take the
initial plan's first steps_per_iteration actions on iteration 0 and the
truncated incremental plan afterwards, exit on an empty batch, run the
batch, and after a completed batch exit successfully when verification
passes. -/
def agentLoopAux (oc : LoopOracles) (spi : Nat) (initialSteps : List Action) :
    Nat → Nat → LoopState → LoopState
  | 0, _, st => st
  | remaining + 1, i, st =>
    let st0 : LoopState := { st with res := { st.res with iterations := i + 1 } }
    let batch := if i = 0 then initialSteps.take spi else (oc.planNext i).take spi
    if batch.isEmpty then st0
    else
      match execBatch oc batch st0 with
      | .error st1 => st1
      | .ok st1 =>
        if oc.verify i then { st1 with res := { st1.res with success := true } }
        else agentLoopAux oc spi initialSteps remaining (i + 1) st1

/-- CodingAgent.agent_loop for a run whose initial plan has the given steps:
results start as success=true with zero counters and the loop runs for at
most max_iterations iterations. -/
def agent_loop (oc : LoopOracles) (max_iterations steps_per_iteration : Nat)
    (initialSteps : List Action) : LoopState :=
  agentLoopAux oc steps_per_iteration initialSteps max_iterations 0
    ⟨⟨true, 0, 0, 0⟩, [], 0⟩

/-- Path validation fails exactly on the claims' bad set: a resolved path
that is not a descendant of the repository root, or an absolute argument. -/
lemma validatePath_eq_none (root : List String) (p : RawPath)
    (h : isDescendant root (resolvePath root p) = false ∨ p.absolute = true) :
    validatePath root p = none := by
  unfold validatePath
  rcases h with h | h
  · simp only [isDescendant] at h
    simp [h]
  · by_cases hpre : root.isPrefixOf (resolvePath root p) <;> simp [hpre, h]

/-- Claim C1: for every filesystem adapter operation and every path argument
whose resolved form is not a descendant of the repository root, or whose
original argument is absolute, the operation returns the path-violation
failure and leaves the filesystem untouched (read and list_directory do not
mutate by construction, and the failed read carries no data). -/
theorem path_jail_rejects_escapes (fs : FS) (p : RawPath)
    (h : isDescendant fs.root (resolvePath fs.root p) = false ∨ p.absolute = true) :
    (∀ max_file_size, FileSystemTool.read fs max_file_size p = pathViolationFail)
    ∧ (∀ max_file_size content,
        FileSystemTool.write fs max_file_size p content = (pathViolationFail, fs))
    ∧ (∀ old_text new_text,
        FileSystemTool.edit fs p old_text new_text = (pathViolationFail, fs))
    ∧ (∀ line_number content operation,
        FileSystemTool.insert_lines fs p line_number content operation = (pathViolationFail, fs))
    ∧ (∀ timestamp, FileSystemTool.delete fs timestamp p = (pathViolationFail, fs))
    ∧ FileSystemTool.list_directory fs p = pathViolationFail := by
  have hv := validatePath_eq_none fs.root p h
  refine ⟨?_, ?_, ?_, ?_, ?_, ?_⟩ <;> intros <;>
    simp [FileSystemTool.read, FileSystemTool.write, FileSystemTool.edit,
      FileSystemTool.insert_lines, FileSystemTool.delete,
      FileSystemTool.list_directory, hv]

/-- Witness for C1: the relative argument "../etc" resolves outside the root
["repo"] and every operation rejects it, shown here for read and write. -/
theorem path_jail_rejects_escapes_witness :
    (isDescendant ["repo"] (resolvePath ["repo"] ⟨false, ["..", "etc"]⟩) = false
      ∨ (RawPath.mk false ["..", "etc"]).absolute = true)
    ∧ FileSystemTool.read ⟨["repo"], []⟩ 100 ⟨false, ["..", "etc"]⟩ = pathViolationFail
    ∧ FileSystemTool.write ⟨["repo"], []⟩ 100 ⟨false, ["..", "etc"]⟩ ['z'] =
        (pathViolationFail, ⟨["repo"], []⟩) :=
  ⟨Or.inl (by decide),
    (path_jail_rejects_escapes ⟨["repo"], []⟩ ⟨false, ["..", "etc"]⟩ (Or.inl (by decide))).1 100,
    (path_jail_rejects_escapes ⟨["repo"], []⟩ ⟨false, ["..", "etc"]⟩ (Or.inl (by decide))).2.1 100 ['z']⟩

/-- Claim C2 (code bug): a caller-supplied timeout of 121 with max_timeout
120 is handed to the subprocess unclamped (the instrumenting oracle echoes
the timeout it received into the exit code), exceeding the configured
maximum; the timeout-expiry path does return a failed result with the
distinct timed-out message carrying that same unclamped value. -/
theorem shell_timeout_unclamped_bug :
    effectiveTimeout (some 121) 120 = 121
    ∧ ¬ effectiveTimeout (some 121) 120 ≤ 120
    ∧ (ShellTool.run (fun _ t => .completed (Int.ofNat t) "" "") (fun _ => none)
        ["python"] 120 "python -V" (some 121)).exit_code = 121
    ∧ (ShellTool.run (fun _ _ => .timedOut) (fun _ => none)
        ["python"] 120 "python -V" (some 121)).success = false
    ∧ (ShellTool.run (fun _ _ => .timedOut) (fun _ => none)
        ["python"] 120 "python -V" (some 121)).message = .timedOutAfter 121 := by
  decide

/-- Claim C3: a command whose first token's basename is outside the
allowlist is rejected without any subprocess: the result is a fixed failed
record (empty stdout/stderr, exit code -1, rejection message) that does not
depend on the subprocess oracle or on the dangerous-pattern scan. -/
theorem shell_allowlist_blocks_subprocess
    (subproc : String → Nat → SubprocOutcome) (scan : String → Option String)
    (allowlist : List String) (max_timeout : Nat) (command : String)
    (timeout : Option Nat)
    (h : allowlist.contains (commandBasename command) = false) :
    ShellTool.run subproc scan allowlist max_timeout command timeout =
      ⟨false, command, "", "", -1, .rejected (.notAllowlisted (commandBasename command))⟩ := by
  have h' : ¬ commandBasename command ∈ allowlist := by simpa using h
  simp [ShellTool.run, validateCommand, h']

/-- Witness for C3: "rm -rf /" is rejected against the allowlist ["ls"]
even though the dangerous-pattern scan would also have flagged it. -/
theorem shell_allowlist_blocks_subprocess_witness :
    (["ls"] : List String).contains (commandBasename "rm -rf /") = false
    ∧ ShellTool.run (fun _ _ => .completed 0 "" "")
        (fun _ => some "Dangerous recursive delete") ["ls"] 120 "rm -rf /" none =
        ⟨false, "rm -rf /", "", "", -1, .rejected (.notAllowlisted "rm")⟩ := by
  refine ⟨by decide, ?_⟩
  have h2 := shell_allowlist_blocks_subprocess (fun _ _ => .completed 0 "" "")
    (fun _ => some "Dangerous recursive delete") ["ls"] 120 "rm -rf /" none (by decide)
  have h1 : commandBasename "rm -rf /" = "rm" := by decide
  rw [h1] at h2
  exact h2

/-- Claim C4: assess_plan fails closed (not approved, no confirmation) on an
empty plan; a non-empty plan is auto-approved with the low-risk reason and
no confirmation exactly when none of the three triggers fires, and when any
trigger fires the decision is not approved, requires confirmation, and
records exactly the fired triggers. -/
theorem assess_plan_gate_spec (auto_approve_max : ℚ) (delete_file_max : Nat)
    (scanB : String → Bool) (plan : Plan) :
    (plan.steps = [] →
      assess_plan auto_approve_max delete_file_max scanB plan = ⟨false, 0, .noSteps, false⟩)
    ∧ (plan.steps ≠ [] →
        (assess_plan auto_approve_max delete_file_max scanB plan =
            ⟨true, planMaxRisk plan.steps, .autoApproved, false⟩
          ↔ (¬ planMaxRisk plan.steps > auto_approve_max
              ∧ ¬ planDeleteCount plan.steps > delete_file_max
              ∧ planHasDangerousShell scanB plan.steps = false))
        ∧ ((planMaxRisk plan.steps > auto_approve_max
              ∨ planDeleteCount plan.steps > delete_file_max
              ∨ planHasDangerousShell scanB plan.steps = true) →
            assess_plan auto_approve_max delete_file_max scanB plan =
              ⟨false, planMaxRisk plan.steps,
                .flagged (decide (planMaxRisk plan.steps > auto_approve_max))
                  (decide (planDeleteCount plan.steps > delete_file_max))
                  (planHasDangerousShell scanB plan.steps), true⟩)) := by
  rcases hp : plan.steps with _ | ⟨s, rest⟩
  · refine ⟨fun _ => ?_, fun hne => absurd rfl hne⟩
    simp [assess_plan, hp]
  · refine ⟨fun he => by simp [hp] at he, fun _ => ?_⟩
    by_cases h1 : planMaxRisk (s :: rest) > auto_approve_max <;>
      by_cases h2 : planDeleteCount (s :: rest) > delete_file_max <;>
      cases h3 : planHasDangerousShell scanB (s :: rest) <;>
      simp [assess_plan, hp, h1, h2, h3]

/-- Witness for C4: a single zero-risk write step under threshold 1 is
auto-approved with the low-risk reason and no confirmation. -/
theorem assess_plan_gate_spec_witness :
    assess_plan 1 3 (fun _ => false)
        ⟨"g", [⟨.fs_write, "", some "a.txt", 0⟩]⟩ =
      ⟨true, planMaxRisk [⟨.fs_write, "", some "a.txt", 0⟩], .autoApproved, false⟩ :=
  ((assess_plan_gate_spec 1 3 (fun _ => false)
      ⟨"g", [⟨.fs_write, "", some "a.txt", 0⟩]⟩).2 (by simp)).1.mpr
    ⟨by decide, by decide, by decide⟩

/-- Claim C9: on a failed result the observation's error type is assigned by
the case-insensitive marker scan in priority order (import, then syntax,
then not-found/does-not-exist, then permission, else unknown), and the
observation is non-retryable exactly when the assigned type is
PermissionError. -/
theorem observe_error_classification (a : Action) (r : ExecResult)
    (h : r.success = false) :
    ((observe a r).error_type = some .importError ↔
      strOccursLower r.message "import" = true)
    ∧ ((observe a r).error_type = some .syntaxError ↔
        (strOccursLower r.message "import" = false
          ∧ strOccursLower r.message "syntax" = true))
    ∧ ((observe a r).error_type = some .fileNotFoundError ↔
        (strOccursLower r.message "import" = false
          ∧ strOccursLower r.message "syntax" = false
          ∧ (strOccursLower r.message "not found" = true
              ∨ strOccursLower r.message "does not exist" = true)))
    ∧ ((observe a r).error_type = some .permissionError ↔
        (strOccursLower r.message "import" = false
          ∧ strOccursLower r.message "syntax" = false
          ∧ strOccursLower r.message "not found" = false
          ∧ strOccursLower r.message "does not exist" = false
          ∧ strOccursLower r.message "permission" = true))
    ∧ ((observe a r).error_type = some .unknownError ↔
        (strOccursLower r.message "import" = false
          ∧ strOccursLower r.message "syntax" = false
          ∧ strOccursLower r.message "not found" = false
          ∧ strOccursLower r.message "does not exist" = false
          ∧ strOccursLower r.message "permission" = false))
    ∧ ((observe a r).can_retry = false ↔
        (observe a r).error_type = some .permissionError) := by
  cases h1 : strOccursLower r.message "import" <;>
    cases h2 : strOccursLower r.message "syntax" <;>
    cases h3 : strOccursLower r.message "not found" <;>
    cases h4 : strOccursLower r.message "does not exist" <;>
    cases h5 : strOccursLower r.message "permission" <;>
    simp [observe, classifyError, h, h1, h2, h3, h4, h5]

/-- Witness for C9: the message "Permission denied" classifies as
PermissionError and is the non-retryable case. -/
theorem observe_error_classification_witness :
    (observe ⟨.shell_run, "", none, 0⟩ ⟨false, "Permission denied", ""⟩).error_type
        = some .permissionError
    ∧ (observe ⟨.shell_run, "", none, 0⟩ ⟨false, "Permission denied", ""⟩).can_retry
        = false := by
  have h := observe_error_classification ⟨.shell_run, "", none, 0⟩
    ⟨false, "Permission denied", ""⟩ rfl
  have he := h.2.2.2.1.mpr ⟨by decide, by decide, by decide, by decide, by decide⟩
  exact ⟨he, h.2.2.2.2.2.mpr he⟩

/-- Looking up the freshly written path returns the freshly written
content. -/
lemma lookupFile_setFile (fs : FS) (q : List String) (c : List Char) :
    lookupFile (setFile fs q c) q = some c := by
  simp [lookupFile, setFile, List.find?]

/-- Claim C7 counterexample: with an existing file repo/d/x, the path "d"
resolves inside the repository root and the one-byte content is far below
the ceiling, yet write fails (the target is an existing directory, so the
source's read_text/write_text raises and is caught), falsifying the
universally quantified round-trip. -/
theorem write_read_roundtrip_counterexample :
    validatePath ["repo"] ⟨false, ["d"]⟩ = some ["repo", "d"]
    ∧ utf8Len ['z'] ≤ 1048576
    ∧ (FileSystemTool.write ⟨["repo"], [(["repo", "d", "x"], ['h', 'i'])]⟩ 1048576
        ⟨false, ["d"]⟩ ['z']).1.success = false := by
  decide

/-- Claim C7 as amended: for every path that validates against the
repository root, does not denote an existing directory, has no strict
ancestor that is a regular file, and every content within the size ceiling,
write succeeds and a subsequent read succeeds returning exactly the written
content. -/
theorem write_read_roundtrip (fs : FS) (max_file_size : Nat) (p : RawPath)
    (full : List String) (content : List Char)
    (hv : validatePath fs.root p = some full)
    (hdir : isDirAt fs full = false)
    (hanc : hasFileStrictAncestor fs full = false)
    (hsize : utf8Len content ≤ max_file_size) :
    (FileSystemTool.write fs max_file_size p content).1.success = true
    ∧ FileSystemTool.read (FileSystemTool.write fs max_file_size p content).2
        max_file_size p = ⟨true, .okRead, some content⟩ := by
  have hsz : ¬ utf8Len content > max_file_size := by omega
  have hw : FileSystemTool.write fs max_file_size p content
      = (⟨true, .okWrite, none⟩, setFile fs full content) := by
    simp [FileSystemTool.write, hv, hsz, hanc, hdir]
  refine ⟨by rw [hw], ?_⟩
  rw [hw]
  have hv' : validatePath (setFile fs full content).root p = some full := hv
  simp [FileSystemTool.read, hv', lookupFile_setFile, hsz]

/-- Witness for amended C7: writing "hello" to a fresh a.txt under root
["repo"] succeeds and reads back exactly. -/
theorem write_read_roundtrip_witness :
    (FileSystemTool.write ⟨["repo"], []⟩ 1048576 ⟨false, ["a.txt"]⟩
        "hello".toList).1.success = true
    ∧ FileSystemTool.read (FileSystemTool.write ⟨["repo"], []⟩ 1048576
        ⟨false, ["a.txt"]⟩ "hello".toList).2 1048576 ⟨false, ["a.txt"]⟩ =
        ⟨true, .okRead, some "hello".toList⟩ :=
  write_read_roundtrip ⟨["repo"], []⟩ 1048576 ⟨false, ["a.txt"]⟩
    ["repo", "a.txt"] "hello".toList (by decide) (by decide) (by decide) (by decide)

/-- A found index is a genuine occurrence, is the leftmost one, and lies
within the text. -/
lemma firstOcc_spec (pat : List Char) :
    ∀ (s : List Char) (k : Nat), firstOcc pat s = some k →
      pat.isPrefixOf (s.drop k) = true
      ∧ (∀ j, j < k → pat.isPrefixOf (s.drop j) = false)
      ∧ k ≤ s.length := by
  intro s
  induction s with
  | nil =>
    intro k h
    by_cases hp : pat.isPrefixOf ([] : List Char)
    · simp only [firstOcc, if_pos hp] at h
      cases h
      exact ⟨hp, fun j hj => absurd hj (Nat.not_lt_zero j), Nat.zero_le _⟩
    · simp only [firstOcc, if_neg hp] at h
      exact Option.noConfusion h
  | cons c t ih =>
    intro k h
    by_cases hp : pat.isPrefixOf (c :: t)
    · simp only [firstOcc, if_pos hp] at h
      cases h
      exact ⟨hp, fun j hj => absurd hj (Nat.not_lt_zero j), Nat.zero_le _⟩
    · simp only [firstOcc, if_neg hp] at h
      rcases hmap : firstOcc pat t with _ | k'
      · rw [hmap] at h
        exact Option.noConfusion h
      · rw [hmap] at h
        obtain rfl : k' + 1 = k := Option.some.inj h
        obtain ⟨h1, h2, h3⟩ := ih k' hmap
        refine ⟨h1, ?_, Nat.succ_le_succ h3⟩
        intro j hj
        cases j with
        | zero => exact Bool.eq_false_iff.mpr hp
        | succ j' => exact h2 j' (Nat.lt_of_succ_lt_succ hj)

/-- When no index is found, the pattern occurs at no position. -/
lemma firstOcc_eq_none_spec (pat : List Char) :
    ∀ (s : List Char), firstOcc pat s = none →
      ∀ j, pat.isPrefixOf (s.drop j) = false := by
  intro s
  induction s with
  | nil =>
    intro h j
    by_cases hp : pat.isPrefixOf ([] : List Char)
    · simp only [firstOcc, if_pos hp] at h
      exact Option.noConfusion h
    · cases j <;> exact Bool.eq_false_iff.mpr hp
  | cons c t ih =>
    intro h j
    by_cases hp : pat.isPrefixOf (c :: t)
    · simp only [firstOcc, if_pos hp] at h
      exact Option.noConfusion h
    · simp only [firstOcc, if_neg hp, Option.map_eq_none'] at h
      cases j with
      | zero => exact Bool.eq_false_iff.mpr hp
      | succ j' => exact ih h j'

/-- The Python membership test "pat in s" agrees with list-infix (literal
substring). -/
lemma occursIn_iff_isInfix (s pat : List Char) :
    occursIn s pat = true ↔ pat <:+: s := by
  constructor
  · intro h
    rcases ho : firstOcc pat s with _ | k
    · simp [occursIn, ho] at h
    · have h1 := (firstOcc_spec pat s k ho).1
      have hpre : pat <+: s.drop k := List.isPrefixOf_iff_prefix.mp h1
      exact hpre.isInfix.trans (List.drop_suffix k s).isInfix
  · intro h
    obtain ⟨x, y, hxy⟩ := h
    rcases ho : firstOcc pat s with _ | k
    · exfalso
      have hnone := firstOcc_eq_none_spec pat s ho x.length
      rw [← hxy, List.append_assoc, List.drop_left] at hnone
      have htrue : pat.isPrefixOf (pat ++ y) = true :=
        List.isPrefixOf_iff_prefix.mpr (List.prefix_append pat y)
      rw [hnone] at htrue
      exact Bool.false_ne_true htrue
    · simp [occursIn, ho]

/-- Dropping past a front block of known length. -/
lemma drop_append_add {α : Type} (A B : List α) (n : Nat) :
    (A ++ B).drop (A.length + n) = B.drop n := by
  induction A with
  | nil => simp
  | cons a A ih =>
    simp only [List.cons_append, List.length_cons, Nat.succ_add, List.drop_succ_cons]
    exact ih

/-- Claim C8: on an existing file, edit fails with the text-not-found result
exactly when old_text is not a literal substring of the content; when it
occurs at leftmost index k, edit succeeds and rewrites the file to the
content with that single occurrence replaced, the suffix after the
replacement being exactly the original suffix after the occurrence (so
every later occurrence is untouched). -/
theorem edit_first_occurrence_spec (fs : FS) (p : RawPath) (full : List String)
    (content old_text new_text : List Char)
    (hv : validatePath fs.root p = some full)
    (hf : lookupFile fs full = some content) :
    (((FileSystemTool.edit fs p old_text new_text).1.success = false
        ∧ (FileSystemTool.edit fs p old_text new_text).1.kind = .textNotFound)
      ↔ ¬ old_text <:+: content)
    ∧ (∀ k, firstOcc old_text content = some k →
        (FileSystemTool.edit fs p old_text new_text).1 = ⟨true, .okEdit, none⟩
        ∧ (FileSystemTool.edit fs p old_text new_text).2 =
            setFile fs full
              (content.take k ++ new_text ++ content.drop (k + old_text.length))
        ∧ old_text.isPrefixOf (content.drop k) = true
        ∧ (∀ j, j < k → old_text.isPrefixOf (content.drop j) = false)
        ∧ (content.take k ++ new_text ++ content.drop (k + old_text.length)).drop
            (k + new_text.length) = content.drop (k + old_text.length)) := by
  constructor
  · rcases ho : firstOcc old_text content with _ | k
    · have hocc : occursIn content old_text = false := by simp [occursIn, ho]
      have hni : ¬ old_text <:+: content := fun hin =>
        absurd ((occursIn_iff_isInfix content old_text).mpr hin)
          (by rw [hocc]; exact Bool.false_ne_true)
      have hed0 : FileSystemTool.edit fs p old_text new_text =
          (⟨false, .textNotFound, none⟩, fs) := by
        simp [FileSystemTool.edit, hv, hf, hocc]
      exact ⟨fun _ => hni, fun _ => by rw [hed0]; exact ⟨rfl, rfl⟩⟩
    · have hocc : occursIn content old_text = true := by simp [occursIn, ho]
      have hinf : old_text <:+: content := (occursIn_iff_isInfix _ _).mp hocc
      refine ⟨fun hs => ?_, fun hcontra => absurd hinf hcontra⟩
      have htrue : (FileSystemTool.edit fs p old_text new_text).1.success = true := by
        simp [FileSystemTool.edit, hv, hf, hocc]
      rw [htrue] at hs
      exact absurd hs.1 (by simp)
  · intro k hk
    have hocc : occursIn content old_text = true := by simp [occursIn, hk]
    have hspec := firstOcc_spec old_text content k hk
    have hed : FileSystemTool.edit fs p old_text new_text =
        (⟨true, .okEdit, none⟩,
          setFile fs full (replaceFirst content old_text new_text)) := by
      simp [FileSystemTool.edit, hv, hf, hocc]
    have hrf : replaceFirst content old_text new_text =
        content.take k ++ new_text ++ content.drop (k + old_text.length) := by
      simp [replaceFirst, hk]
    refine ⟨by rw [hed], by rw [hed, hrf], hspec.1, hspec.2.1, ?_⟩
    have hklen : k ≤ content.length := hspec.2.2
    have hlt : (content.take k).length = k := by
      simp [List.length_take, Nat.min_eq_left hklen]
    have hda := drop_append_add (content.take k)
      (new_text ++ content.drop (k + old_text.length)) new_text.length
    rw [hlt] at hda
    rw [List.append_assoc, hda]
    exact List.drop_left new_text (content.drop (k + old_text.length))

/-- Witness for C8 on the file content "abab": a missing old_text yields the
text-not-found failure, and editing "ab" to "X" rewrites only the leftmost
occurrence (index 0), leaving the second "ab" in the preserved suffix. -/
theorem edit_first_occurrence_spec_witness :
    (FileSystemTool.edit ⟨["repo"], [(["repo", "f"], "abab".toList)]⟩
        ⟨false, ["f"]⟩ "zz".toList "X".toList).1.kind = .textNotFound
    ∧ (FileSystemTool.edit ⟨["repo"], [(["repo", "f"], "abab".toList)]⟩
        ⟨false, ["f"]⟩ "ab".toList "X".toList).2 =
        setFile ⟨["repo"], [(["repo", "f"], "abab".toList)]⟩ ["repo", "f"]
          (("abab".toList).take 0 ++ "X".toList ++
            ("abab".toList).drop (0 + ("ab".toList).length)) := by
  have hmiss := edit_first_occurrence_spec ⟨["repo"], [(["repo", "f"], "abab".toList)]⟩
    ⟨false, ["f"]⟩ ["repo", "f"] "abab".toList "zz".toList "X".toList
    (by decide) (by decide)
  have hhit := edit_first_occurrence_spec ⟨["repo"], [(["repo", "f"], "abab".toList)]⟩
    ⟨false, ["f"]⟩ ["repo", "f"] "abab".toList "ab".toList "X".toList
    (by decide) (by decide)
  have hni : ¬ ("zz".toList <:+: "abab".toList) := fun hin =>
    absurd ((occursIn_iff_isInfix "abab".toList "zz".toList).mpr hin) (by decide)
  exact ⟨(hmiss.1.mpr hni).2, (hhit.2 0 (by decide)).2.1⟩

/-- A text whose interior is LF-free and whose last character is not LF
contains no LF at all. -/
lemma all_ne_nl_of_parts (l : List Char) (hne : l ≠ [])
    (hint : ∀ d ∈ l.dropLast, d ≠ '\n') (hlast : ¬ l.getLast? = some '\n') :
    ∀ d ∈ l, d ≠ '\n' := by
  intro d hd
  rw [← List.dropLast_concat_getLast hne] at hd
  rcases List.mem_append.mp hd with hd' | hd'
  · exact hint d hd'
  · rcases List.mem_singleton.mp hd' with rfl
    intro hEq
    apply hlast
    rw [List.getLast?_eq_getLast l hne, hEq]

/-- Shape of splitKE output: every line is non-empty with an LF-free
interior, and every line except possibly the last ends with LF. -/
lemma splitKE_shape : ∀ cs : List Char,
    (∀ l ∈ splitKE cs, l ≠ [] ∧ ∀ d ∈ l.dropLast, d ≠ '\n')
    ∧ (∀ l ∈ (splitKE cs).dropLast, l.getLast? = some '\n') := by
  intro cs
  induction cs with
  | nil => exact ⟨by simp [splitKE], by simp [splitKE]⟩
  | cons c rest ih =>
    by_cases hc : c = '\n'
    · subst hc
      have hsp : splitKE ('\n' :: rest) = ['\n'] :: splitKE rest := by
        simp [splitKE]
      constructor
      · intro l hl
        rw [hsp] at hl
        rcases List.mem_cons.mp hl with rfl | hl'
        · exact ⟨by simp, by simp⟩
        · exact ih.1 l hl'
      · intro l hl
        rw [hsp] at hl
        rcases hS : splitKE rest with _ | ⟨y, T⟩
        · rw [hS] at hl
          simp at hl
        · rw [hS, List.dropLast_cons₂] at hl
          have ih2 := ih.2
          rw [hS] at ih2
          rcases List.mem_cons.mp hl with rfl | hl'
          · simp
          · exact ih2 l hl'
    · rcases hS : splitKE rest with _ | ⟨y, T⟩
      · have hsp : splitKE (c :: rest) = [[c]] := by
          simp [splitKE, hc, hS]
        constructor
        · intro l hl
          rw [hsp] at hl
          rcases List.mem_singleton.mp hl with rfl
          exact ⟨by simp, by simp⟩
        · intro l hl
          rw [hsp] at hl
          simp at hl
      · have hy := ih.1 y (by rw [hS]; exact List.mem_cons_self y T)
        obtain ⟨z', U', rfl⟩ : ∃ z' U', y = z' :: U' := by
          cases y with
          | nil => exact absurd rfl hy.1
          | cons z U => exact ⟨z, U, rfl⟩
        have hsp : splitKE (c :: rest) = (c :: z' :: U') :: T := by
          simp [splitKE, hc, hS]
        constructor
        · intro l hl
          rw [hsp] at hl
          rcases List.mem_cons.mp hl with rfl | hl'
          · refine ⟨by simp, ?_⟩
            intro d hd
            rw [List.dropLast_cons₂] at hd
            rcases List.mem_cons.mp hd with rfl | hd'
            · exact hc
            · exact hy.2 d hd'
          · have ih1 := ih.1
            rw [hS] at ih1
            exact ih1 l (List.mem_cons_of_mem _ hl')
        · intro l hl
          rw [hsp] at hl
          cases T with
          | nil => simp at hl
          | cons z U =>
            rw [List.dropLast_cons₂] at hl
            have ih2 := ih.2
            rw [hS, List.dropLast_cons₂] at ih2
            rcases List.mem_cons.mp hl with rfl | hl'
            · rw [List.getLast?_cons_cons]
              exact ih2 (z' :: U') (List.mem_cons_self _ _)
            · exact ih2 l (List.mem_cons_of_mem _ hl')

/-- Lines that all end with LF are left unchanged by the trailing-LF
normalisation. -/
lemma normalizeLastNl_eq_self (L : List (List Char))
    (h : ∀ l ∈ L, l.getLast? = some '\n') :
    FileSystemTool.normalizeLastNl L = L := by
  unfold FileSystemTool.normalizeLastNl
  rcases hL : L.getLast? with _ | last
  · rfl
  · show (if last.getLast? = some '\n' then L else L.dropLast ++ [last ++ ['\n']]) = L
    rw [if_pos (h last (List.mem_of_getLast?_eq_some hL))]

/-- After normalisation every line of a splitKE-shaped list is non-empty,
ends with LF, and has an LF-free interior. -/
lemma normalizeLastNl_proper (L : List (List Char))
    (h1 : ∀ l ∈ L, l ≠ [] ∧ ∀ d ∈ l.dropLast, d ≠ '\n')
    (h2 : ∀ l ∈ L.dropLast, l.getLast? = some '\n') :
    ∀ l ∈ FileSystemTool.normalizeLastNl L,
      l ≠ [] ∧ l.getLast? = some '\n' ∧ ∀ d ∈ l.dropLast, d ≠ '\n' := by
  intro l hl
  unfold FileSystemTool.normalizeLastNl at hl
  rcases hL : L.getLast? with _ | last
  · rw [hL] at hl
    rw [List.getLast?_eq_none_iff] at hL
    subst hL
    simp at hl
  · rw [hL] at hl
    have hl' : l ∈ (if last.getLast? = some '\n' then L
        else L.dropLast ++ [last ++ ['\n']]) := hl
    clear hl
    have hmemL : last ∈ L := List.mem_of_getLast?_eq_some hL
    have hLne : L ≠ [] := List.ne_nil_of_mem hmemL
    by_cases hend : last.getLast? = some '\n'
    · rw [if_pos hend] at hl'
      have hgl : L.getLast hLne = last := by
        have hgg := List.getLast?_eq_getLast L hLne
        rw [hL] at hgg
        exact (Option.some.inj hgg).symm
      rw [← List.dropLast_concat_getLast hLne, hgl] at hl'
      rcases List.mem_append.mp hl' with hd | hd
      · have hlm : l ∈ L := (List.dropLast_sublist L).subset hd
        exact ⟨(h1 l hlm).1, h2 l hd, (h1 l hlm).2⟩
      · rcases List.mem_singleton.mp hd with rfl
        exact ⟨(h1 _ hmemL).1, hend, (h1 _ hmemL).2⟩
    · rw [if_neg hend] at hl'
      rcases List.mem_append.mp hl' with hd | hd
      · have hlm : l ∈ L := (List.dropLast_sublist L).subset hd
        exact ⟨(h1 l hlm).1, h2 l hd, (h1 l hlm).2⟩
      · rcases List.mem_singleton.mp hd with rfl
        refine ⟨by simp, List.getLast?_concat _, ?_⟩
        rw [List.dropLast_concat]
        exact all_ne_nl_of_parts _ (h1 _ hmemL).1 (h1 _ hmemL).2 hend

/-- Splitting after a complete LF-terminated line peels it off. -/
lemma splitKE_append_line : ∀ (l rest : List Char), l ≠ [] →
    l.getLast? = some '\n' → (∀ d ∈ l.dropLast, d ≠ '\n') →
    splitKE (l ++ rest) = l :: splitKE rest := by
  intro l
  induction l with
  | nil => intro rest h _ _; exact absurd rfl h
  | cons c l' ih =>
    intro rest _ hend hint
    cases l' with
    | nil =>
      have hc : c = '\n' := by simpa using hend
      subst hc
      simp [splitKE]
    | cons y T =>
      have hc : c ≠ '\n' := by
        apply hint
        rw [List.dropLast_cons₂]
        exact List.mem_cons_self _ _
      rw [List.getLast?_cons_cons] at hend
      have hint' : ∀ d ∈ (y :: T).dropLast, d ≠ '\n' := by
        intro d hd
        apply hint
        rw [List.dropLast_cons₂]
        exact List.mem_cons_of_mem _ hd
      have ihres := ih rest (by simp) hend hint'
      rw [List.cons_append]
      rw [show splitKE (c :: ((y :: T) ++ rest)) =
          match splitKE ((y :: T) ++ rest) with
          | [] => [[c]]
          | a :: s => (c :: a) :: s from by simp [splitKE, hc]]
      rw [ihres]

/-- Splitting the concatenation of complete LF-terminated lines recovers
exactly those lines. -/
lemma splitKE_flatten_of_proper : ∀ (L : List (List Char)),
    (∀ l ∈ L, l ≠ [] ∧ l.getLast? = some '\n' ∧ ∀ d ∈ l.dropLast, d ≠ '\n') →
    splitKE L.flatten = L := by
  intro L
  induction L with
  | nil => intro _; simp [splitKE]
  | cons l L' ih =>
    intro h
    obtain ⟨h1, h2, h3⟩ := h l (List.mem_cons_self _ _)
    rw [List.flatten_cons, splitKE_append_line l L'.flatten h1 h2 h3,
      ih (fun x hx => h x (List.mem_cons_of_mem _ hx))]

/-- The content normalisation of insert_lines yields a complete single line
when the input is non-empty with an LF-free interior. -/
lemma ensureNl_proper (content : List Char) (hcne : content ≠ [])
    (hcint : ∀ d ∈ content.dropLast, d ≠ '\n') :
    FileSystemTool.ensureNl content ≠ []
    ∧ (FileSystemTool.ensureNl content).getLast? = some '\n'
    ∧ ∀ d ∈ (FileSystemTool.ensureNl content).dropLast, d ≠ '\n' := by
  unfold FileSystemTool.ensureNl
  by_cases hend : content.getLast? = some '\n'
  · rw [if_neg (fun hcond => hcond.2 hend)]
    exact ⟨hcne, hend, hcint⟩
  · rw [if_pos ⟨hcne, hend⟩]
    refine ⟨by simp, List.getLast?_concat content, ?_⟩
    rw [List.dropLast_concat]
    exact all_ne_nl_of_parts content hcne hcint hend

/-- Overwriting the same path twice keeps only the last write. -/
lemma setFile_setFile (fs : FS) (q : List String) (c c' : List Char) :
    setFile (setFile fs q c) q c' = setFile fs q c' := by
  unfold setFile
  simp [List.filter_cons, List.filter_filter, Bool.and_self]

/-- Claim C6 counterexample: replace is not idempotent for every content.
On the file "a\n", replacing line 1 with the two-line content "x\ny" once
yields "x\ny\n" but doing it twice yields "x\ny\ny\n" (the replacement
spliced in two lines, so line 1 now addresses only the first of them); on
the file "a\nb\n", replacing line 1 with the empty content deletes the line,
so the second application deletes the next line too. -/
theorem insert_replace_not_idempotent_counterexample :
    lookupFile (FileSystemTool.insert_lines ⟨["repo"], [(["repo", "f"], "a\n".toList)]⟩
        ⟨false, ["f"]⟩ 1 "x\ny".toList "replace").2 ["repo", "f"] = some "x\ny\n".toList
    ∧ lookupFile (FileSystemTool.insert_lines
        (FileSystemTool.insert_lines ⟨["repo"], [(["repo", "f"], "a\n".toList)]⟩
          ⟨false, ["f"]⟩ 1 "x\ny".toList "replace").2
        ⟨false, ["f"]⟩ 1 "x\ny".toList "replace").2 ["repo", "f"] = some "x\ny\ny\n".toList
    ∧ "x\ny\n".toList ≠ "x\ny\ny\n".toList
    ∧ lookupFile (FileSystemTool.insert_lines ⟨["repo"], [(["repo", "g"], "a\nb\n".toList)]⟩
        ⟨false, ["g"]⟩ 1 [] "replace").2 ["repo", "g"] = some "b\n".toList
    ∧ lookupFile (FileSystemTool.insert_lines
        (FileSystemTool.insert_lines ⟨["repo"], [(["repo", "g"], "a\nb\n".toList)]⟩
          ⟨false, ["g"]⟩ 1 [] "replace").2
        ⟨false, ["g"]⟩ 1 [] "replace").2 ["repo", "g"] = some ([] : List Char)
    ∧ "b\n".toList ≠ ([] : List Char) := by
  decide

/-- Claim C6 as amended: on an existing file, for a line number addressing
an existing line and a non-empty content whose interior contains no LF
(i.e. the content is a single line, up to the trailing LF the adapter adds),
applying insert_lines with operation replace twice with the same line number
and content yields exactly the state and result of applying it once. -/
theorem insert_replace_idempotent_single_line (fs : FS) (p : RawPath)
    (full : List String) (old content : List Char) (ln : Nat)
    (hv : validatePath fs.root p = some full)
    (hf : lookupFile fs full = some old)
    (h1 : 1 ≤ ln)
    (h2 : ln ≤ (FileSystemTool.normalizeLastNl (splitKE old)).length)
    (hcne : content ≠ [])
    (hcint : ∀ d ∈ content.dropLast, d ≠ '\n') :
    FileSystemTool.insert_lines
        (FileSystemTool.insert_lines fs p ln content "replace").2 p ln content "replace"
      = FileSystemTool.insert_lines fs p ln content "replace" := by
  have hg1 : ¬ ln < 1 := by omega
  have hg2 : ¬ ln > (FileSystemTool.normalizeLastNl (splitKE old)).length + 1 := by omega
  have hg3 : ln - 1 < (FileSystemTool.normalizeLastNl (splitKE old)).length := by omega
  have hne1 : ¬ ("replace" : String) = "after" := by decide
  have hne2 : ¬ ("replace" : String) = "before" := by decide
  have hfirst : FileSystemTool.insert_lines fs p ln content "replace" =
      (⟨true, .okInsert, none⟩,
        setFile fs full
          (((FileSystemTool.normalizeLastNl (splitKE old)).set (ln - 1)
            (FileSystemTool.ensureNl content)).flatten)) := by
    simp [FileSystemTool.insert_lines, hv, hf, hg1, hg2, hg3, hne1, hne2]
  have hprop : ∀ l ∈ (FileSystemTool.normalizeLastNl (splitKE old)).set (ln - 1)
      (FileSystemTool.ensureNl content),
      l ≠ [] ∧ l.getLast? = some '\n' ∧ ∀ d ∈ l.dropLast, d ≠ '\n' := by
    intro l hl
    rcases List.mem_or_eq_of_mem_set hl with hmem | rfl
    · exact normalizeLastNl_proper _ (splitKE_shape old).1 (splitKE_shape old).2 l hmem
    · exact ensureNl_proper content hcne hcint
  have hsplit : splitKE (((FileSystemTool.normalizeLastNl (splitKE old)).set (ln - 1)
      (FileSystemTool.ensureNl content)).flatten) =
      (FileSystemTool.normalizeLastNl (splitKE old)).set (ln - 1)
        (FileSystemTool.ensureNl content) :=
    splitKE_flatten_of_proper _ hprop
  have hnorm : FileSystemTool.normalizeLastNl
      ((FileSystemTool.normalizeLastNl (splitKE old)).set (ln - 1)
        (FileSystemTool.ensureNl content)) =
      (FileSystemTool.normalizeLastNl (splitKE old)).set (ln - 1)
        (FileSystemTool.ensureNl content) :=
    normalizeLastNl_eq_self _ (fun l hl => (hprop l hl).2.1)
  have hg2' : ¬ ln > ((FileSystemTool.normalizeLastNl (splitKE old)).set (ln - 1)
      (FileSystemTool.ensureNl content)).length + 1 := by
    rw [List.length_set]
    omega
  have hg3' : ln - 1 < ((FileSystemTool.normalizeLastNl (splitKE old)).set (ln - 1)
      (FileSystemTool.ensureNl content)).length := by
    rw [List.length_set]
    omega
  rw [hfirst]
  have hv2 : validatePath (setFile fs full
      (((FileSystemTool.normalizeLastNl (splitKE old)).set (ln - 1)
        (FileSystemTool.ensureNl content)).flatten)).root p = some full := hv
  have hf2 : lookupFile (setFile fs full
      (((FileSystemTool.normalizeLastNl (splitKE old)).set (ln - 1)
        (FileSystemTool.ensureNl content)).flatten)) full =
      some (((FileSystemTool.normalizeLastNl (splitKE old)).set (ln - 1)
        (FileSystemTool.ensureNl content)).flatten) :=
    lookupFile_setFile _ _ _
  simp [FileSystemTool.insert_lines, hv2, hf2, hsplit, hnorm, hg1, hg2', hg3',
    hne1, hne2, List.set_set, setFile_setFile]
  rw [if_neg (by omega), if_pos (by omega)]

/-- Witness for amended C6: replacing line 2 of "a\nb\n" by the single-line
content "x" twice equals doing it once. -/
theorem insert_replace_idempotent_single_line_witness :
    FileSystemTool.insert_lines
        (FileSystemTool.insert_lines ⟨["repo"], [(["repo", "f"], "a\nb\n".toList)]⟩
          ⟨false, ["f"]⟩ 2 "x".toList "replace").2 ⟨false, ["f"]⟩ 2 "x".toList "replace"
      = FileSystemTool.insert_lines ⟨["repo"], [(["repo", "f"], "a\nb\n".toList)]⟩
          ⟨false, ["f"]⟩ 2 "x".toList "replace" :=
  insert_replace_idempotent_single_line ⟨["repo"], [(["repo", "f"], "a\nb\n".toList)]⟩
    ⟨false, ["f"]⟩ ["repo", "f"] "a\nb\n".toList "x".toList 2
    (by decide) (by decide) (by decide) (by decide) (by decide) (by decide)

/-- Claim C5: in the self-correction sub-loop (called on the fix plan sliced
to its first two steps), a fix action that succeeds ends the fix attempt
with the run continuing, a fix action that fails ends the whole run with
success=false, and the executor-call log shows that at most the first fix
action of the slice (hence at most the first two fix actions) ever runs.
Concretely, with max_iterations=1, a single retryable failing action and a
reflector whose single fix action succeeds, the run ends with success=true
and self_corrections=1 having executed exactly the action and its fix; with
a failing fix action instead, the run ends with success=false after exactly
one iteration. -/
theorem self_correction_fix_semantics :
    (∀ (oc : LoopOracles) (st : LoopState) (f : Action) (rest : List Action),
        (oc.exec st.execLog.length f).success = true →
        runFixActions oc st (f :: rest) = .ok { st with execLog := st.execLog ++ [f] })
    ∧ (∀ (oc : LoopOracles) (st : LoopState) (f : Action) (rest : List Action),
        (oc.exec st.execLog.length f).success = false →
        runFixActions oc st (f :: rest) =
          .error { st with res := { st.res with success := false },
                           execLog := st.execLog ++ [f] })
    ∧ (∀ (oc : LoopOracles) (st : LoopState) (steps : List Action),
        exceptLog (runFixActions oc st (steps.take 2)) = st.execLog ++ steps.take 1)
    ∧ ((agent_loop
          ⟨fun n _ => if n = 0 then ⟨false, "boom", ""⟩ else ⟨true, "ok", ""⟩,
            fun _ => .ok [⟨.fs_write, "", some "fix.txt", 0⟩],
            fun _ => false, fun _ => []⟩
          1 3 [⟨.shell_run, "pytest", none, 0⟩]).res = ⟨true, 1, 1, 1⟩
        ∧ (agent_loop
            ⟨fun n _ => if n = 0 then ⟨false, "boom", ""⟩ else ⟨true, "ok", ""⟩,
              fun _ => .ok [⟨.fs_write, "", some "fix.txt", 0⟩],
              fun _ => false, fun _ => []⟩
            1 3 [⟨.shell_run, "pytest", none, 0⟩]).execLog =
          [⟨.shell_run, "pytest", none, 0⟩, ⟨.fs_write, "", some "fix.txt", 0⟩])
    ∧ ((agent_loop
          ⟨fun _ _ => ⟨false, "boom", ""⟩,
            fun _ => .ok [⟨.fs_write, "", some "fix.txt", 0⟩],
            fun _ => false, fun _ => []⟩
          1 3 [⟨.shell_run, "pytest", none, 0⟩]).res = ⟨false, 1, 1, 1⟩
        ∧ (agent_loop
            ⟨fun _ _ => ⟨false, "boom", ""⟩,
              fun _ => .ok [⟨.fs_write, "", some "fix.txt", 0⟩],
              fun _ => false, fun _ => []⟩
            1 3 [⟨.shell_run, "pytest", none, 0⟩]).execLog =
          [⟨.shell_run, "pytest", none, 0⟩, ⟨.fs_write, "", some "fix.txt", 0⟩]) := by
  refine ⟨?_, ?_, ?_, by decide, by decide⟩
  · intro oc st f rest h
    simp [runFixActions, h]
  · intro oc st f rest h
    simp [runFixActions, h]
  · intro oc st steps
    cases steps with
    | nil => simp [runFixActions, exceptLog]
    | cons f rest =>
      cases h : (oc.exec st.execLog.length f).success <;>
        simp [runFixActions, exceptLog, h, List.take_succ_cons]

/-- Witness for C5: the first-fix-succeeds and first-fix-fails branches of
the sub-loop at concrete oracles and state. -/
theorem self_correction_fix_semantics_witness :
    runFixActions
        ⟨fun _ _ => ⟨true, "ok", ""⟩, fun _ => .ok [], fun _ => false, fun _ => []⟩
        ⟨⟨true, 1, 1, 1⟩, [], 0⟩ [⟨.fs_write, "", some "a", 0⟩] =
      .ok ⟨⟨true, 1, 1, 1⟩, [] ++ [⟨.fs_write, "", some "a", 0⟩], 0⟩
    ∧ runFixActions
        ⟨fun _ _ => ⟨false, "no", ""⟩, fun _ => .ok [], fun _ => false, fun _ => []⟩
        ⟨⟨true, 1, 1, 1⟩, [], 0⟩ [⟨.fs_write, "", some "a", 0⟩] =
      .error ⟨⟨false, 1, 1, 1⟩, [] ++ [⟨.fs_write, "", some "a", 0⟩], 0⟩ :=
  ⟨self_correction_fix_semantics.1
      ⟨fun _ _ => ⟨true, "ok", ""⟩, fun _ => .ok [], fun _ => false, fun _ => []⟩
      ⟨⟨true, 1, 1, 1⟩, [], 0⟩ ⟨.fs_write, "", some "a", 0⟩ [] rfl,
    self_correction_fix_semantics.2.1
      ⟨fun _ _ => ⟨false, "no", ""⟩, fun _ => .ok [], fun _ => false, fun _ => []⟩
      ⟨⟨true, 1, 1, 1⟩, [], 0⟩ ⟨.fs_write, "", some "a", 0⟩ [] rfl⟩

/-- Claim C10: when a retryable action failure reflects into an empty fix
plan, the batch executes no fix action, leaves self_corrections and the
success flag untouched, and proceeds to the remaining actions; in a
concrete run with a second action that succeeds and failing verification,
the run ends with success=true, two executed steps and zero
self-corrections, the original failure silently tolerated. -/
theorem empty_fix_plan_tolerates_failure :
    (∀ (oc : LoopOracles) (st : LoopState) (a : Action) (rest : List Action),
        (oc.exec st.execLog.length a).success = false →
        (observe a (oc.exec st.execLog.length a)).can_retry = true →
        oc.reflect st.reflectCalls = .ok [] →
        execBatch oc (a :: rest) st =
          execBatch oc rest
            { st with
              res := { st.res with steps_executed := st.res.steps_executed + 1 },
              execLog := st.execLog ++ [a],
              reflectCalls := st.reflectCalls + 1 })
    ∧ ((agent_loop
          ⟨fun n _ => if n = 0 then ⟨false, "boom", ""⟩ else ⟨true, "ok", ""⟩,
            fun _ => .ok [], fun _ => false, fun _ => []⟩
          1 3 [⟨.shell_run, "pytest", none, 0⟩, ⟨.shell_run, "ls", none, 0⟩]).res =
        ⟨true, 1, 2, 0⟩
      ∧ (agent_loop
          ⟨fun n _ => if n = 0 then ⟨false, "boom", ""⟩ else ⟨true, "ok", ""⟩,
            fun _ => .ok [], fun _ => false, fun _ => []⟩
          1 3 [⟨.shell_run, "pytest", none, 0⟩, ⟨.shell_run, "ls", none, 0⟩]).execLog =
        [⟨.shell_run, "pytest", none, 0⟩, ⟨.shell_run, "ls", none, 0⟩]) := by
  refine ⟨?_, by decide⟩
  intro oc st a rest h1 h2 h3
  have hos : (observe a (oc.exec st.execLog.length a)).success = false := by
    simp [observe, h1]
  simp [execBatch, hos, h2, h3]

/-- Witness for C10: the empty-fix-plan branch at a concrete oracle and
state, showing the batch moves on to the remaining (empty) action list. -/
theorem empty_fix_plan_tolerates_failure_witness :
    execBatch
        ⟨fun _ _ => ⟨false, "boom", ""⟩, fun _ => .ok [], fun _ => false, fun _ => []⟩
        [⟨.shell_run, "pytest", none, 0⟩] ⟨⟨true, 1, 0, 0⟩, [], 0⟩ =
      execBatch
        ⟨fun _ _ => ⟨false, "boom", ""⟩, fun _ => .ok [], fun _ => false, fun _ => []⟩
        []
        ⟨⟨true, 1, 0 + 1, 0⟩, [] ++ [⟨.shell_run, "pytest", none, 0⟩], 0 + 1⟩ :=
  empty_fix_plan_tolerates_failure.1
    ⟨fun _ _ => ⟨false, "boom", ""⟩, fun _ => .ok [], fun _ => false, fun _ => []⟩
    ⟨⟨true, 1, 0, 0⟩, [], 0⟩ ⟨.shell_run, "pytest", none, 0⟩ [] rfl (by decide) rfl

end CodingAgent
